import Mathlib

/-!
Verification development for the GitHub PR review MCP server
(`mcp_github_pr_review_spec_maker/server.py` and `git_pr_resolver.py`).

The Python source is shallowly embedded: pure helpers become Lean functions,
the stateful fetch loops become explicit state-passing recursions over a
finite script of HTTP outcomes, Python floats are modelled as exact rationals
(the arithmetic in `_calculate_backoff_delay` is exact for the ranges of
interest), and fallible code returns `Option`/`Except`.
-/

namespace PrReview

/-! ## Backoff calculator

Source: `_calculate_backoff_delay` (server.py lines 142-154):
`jitter = random.uniform(0, 0.25); delay = (0.5 * (2**attempt)) + jitter;
return min(5.0, delay)`.  The random draw is made an explicit argument.
-/

def calculate_backoff_delay (attempt : Nat) (jitter : ℚ) : ℚ :=
  min 5 ((1 / 2) * 2 ^ attempt + jitter)

/-! ## PR URL parsing

Source: `get_pr_info` (server.py lines 220-252).  The Python code matches
`re.match(r"^https://([^/]+)/([^/]+)/([^/]+)/pull/(\d+)(?:[/?#].*)?$", url)`
and raises `ValueError` on no match (modelled as `none`).

The regex is deterministic: each `[^/]+` group cannot cross a `/`, so each
group is exactly the maximal run of non-slash characters, and `\d+` is the
maximal run of digits.  Python semantics modelled faithfully:
a negated class `[^/]` matches the newline character, `.` does not match a
newline, `$` matches at the end of the string or just before a newline that
is the last character of the string, and `\d` in a str pattern (no
`re.ASCII`) matches every Unicode decimal digit — any character of Unicode
category Nd — not just `0`-`9`.
-/

/-- The Unicode codepoint ranges of category Nd (decimal digits), Unicode
14.0 as shipped with CPython 3.11's `unicodedata`: 62 runs of ten digits
each, 660 characters in all. -/
def ndDigitRanges : List (Nat × Nat) :=
  [(0x30, 0x39), (0x660, 0x669), (0x6f0, 0x6f9), (0x7c0, 0x7c9),
   (0x966, 0x96f), (0x9e6, 0x9ef), (0xa66, 0xa6f), (0xae6, 0xaef),
   (0xb66, 0xb6f), (0xbe6, 0xbef), (0xc66, 0xc6f), (0xce6, 0xcef),
   (0xd66, 0xd6f), (0xde6, 0xdef), (0xe50, 0xe59), (0xed0, 0xed9),
   (0xf20, 0xf29), (0x1040, 0x1049), (0x1090, 0x1099), (0x17e0, 0x17e9),
   (0x1810, 0x1819), (0x1946, 0x194f), (0x19d0, 0x19d9), (0x1a80, 0x1a89),
   (0x1a90, 0x1a99), (0x1b50, 0x1b59), (0x1bb0, 0x1bb9), (0x1c40, 0x1c49),
   (0x1c50, 0x1c59), (0xa620, 0xa629), (0xa8d0, 0xa8d9), (0xa900, 0xa909),
   (0xa9d0, 0xa9d9), (0xa9f0, 0xa9f9), (0xaa50, 0xaa59), (0xabf0, 0xabf9),
   (0xff10, 0xff19), (0x104a0, 0x104a9), (0x10d30, 0x10d39),
   (0x11066, 0x1106f), (0x110f0, 0x110f9), (0x11136, 0x1113f),
   (0x111d0, 0x111d9), (0x112f0, 0x112f9), (0x11450, 0x11459),
   (0x114d0, 0x114d9), (0x11650, 0x11659), (0x116c0, 0x116c9),
   (0x11730, 0x11739), (0x118e0, 0x118e9), (0x11950, 0x11959),
   (0x11c50, 0x11c59), (0x11d50, 0x11d59), (0x11da0, 0x11da9),
   (0x16a60, 0x16a69), (0x16ac0, 0x16ac9), (0x16b50, 0x16b59),
   (0x1d7ce, 0x1d7ff), (0x1e140, 0x1e149), (0x1e2f0, 0x1e2f9),
   (0x1e950, 0x1e959), (0x1fbf0, 0x1fbf9)]

/-- Python `\d` for str patterns: a character of Unicode category Nd. -/
def isPyDigit (c : Char) : Bool :=
  ndDigitRanges.any (fun p => p.1 ≤ c.toNat ∧ c.toNat ≤ p.2)


/-- One `([^/]+)/` group: the maximal nonempty run of non-slash characters,
followed by a literal slash that is consumed. -/
def segUntilSlash (cs : List Char) : Option (List Char × List Char) :=
  match cs.dropWhile (fun c => c ≠ '/') with
  | [] => none
  | _ :: rest =>
    if cs.takeWhile (fun c => c ≠ '/') = [] then none
    else some (cs.takeWhile (fun c => c ≠ '/'), rest)

/-- The `([^/]+)/pull/` part: maximal nonempty run of non-slash characters,
followed by the literal `/pull/`. -/
def segPull (cs : List Char) : Option (List Char × List Char) :=
  match cs.dropWhile (fun c => c ≠ '/') with
  | '/' :: 'p' :: 'u' :: 'l' :: 'l' :: '/' :: rest =>
    if cs.takeWhile (fun c => c ≠ '/') = [] then none
    else some (cs.takeWhile (fun c => c ≠ '/'), rest)
  | _ => none

/-- After the optional `[/?#]` opener, `.*$` accepts the remainder iff it
contains no newline except possibly as its final character. -/
def restNlOk : List Char → Bool
  | [] => true
  | c :: cs => if c = '\n' then cs.isEmpty else restNlOk cs

/-- The `(?:[/?#].*)?$` suffix: empty, a lone final newline (matched by `$`
just before a string-final newline), or an opener in `/?#` followed by
newline-free text and an optional final newline. -/
def tailOk : List Char → Bool
  | [] => true
  | c :: cs =>
    ((c == '/' || c == '?' || c == '#') && restNlOk cs) || (c == '\n' && cs.isEmpty)

/-- The whole regex of `get_pr_info`, as a deterministic functional parser:
the `^https://` anchor, the three `([^/]+)/` groups (the third followed by
the literal `pull/`), the `(\d+)` group, and the tolerated suffix. -/
def parse_pr_path (cs : List Char) :
    Option (List Char × List Char × List Char × List Char) :=
  if "https://".toList.isPrefixOf cs then
    (segUntilSlash (cs.drop 8)).bind fun p1 =>
      (segUntilSlash p1.2).bind fun p2 =>
        (segPull p2.2).bind fun p3 =>
          if p3.2.takeWhile isPyDigit = [] then none
          else if tailOk (p3.2.dropWhile isPyDigit) then
            some (p1.1, p2.1, p3.1, p3.2.takeWhile isPyDigit)
          else none
  else none

/-- `get_pr_info`: parse a PR URL into (host, owner, repo, pull_number);
`none` models the raised `ValueError`. -/
def get_pr_info (url : String) : Option (String × String × String × String) :=
  match parse_pr_path url.toList with
  | none => none
  | some (h, o, r, n) => some (⟨h⟩, ⟨o⟩, ⟨r⟩, ⟨n⟩)

/-- The canonical bare PR URL `https://{host}/{owner}/{repo}/pull/{n}`. -/
def canonical_pr_url (h o r n : List Char) : List Char :=
  "https://".toList ++ h ++ '/' :: o ++ '/' :: r ++ "/pull/".toList ++ n

/-! ## PR URL resolution from the open-PR list

Source: `resolve_pr_url` (git_pr_resolver.py lines 110-193), specifically the
strategy dispatch over the fetched open-PR candidate list (lines 171-193).
A candidate models one JSON object of the REST open-PR list; `number` is
`p.get("number")`, absent modelled as `none` (the code substitutes `1 << 30`
as the sort key for an absent number).
-/

structure PrCandidate (υ : Type) where
  number : Option Int
  head_ref : Option String
  html_url : Option υ
  url : Option υ
deriving DecidableEq

/-- `int(p.get("number", 1 << 30))`, the sort key used by the `first`
strategy. -/
def candKey {υ : Type} (c : PrCandidate υ) : Int := c.number.getD (2 ^ 30)

/-- `pr.get("html_url") or pr.get("url")`. -/
def prUrlOf {υ : Type} (c : PrCandidate υ) : Option υ :=
  c.html_url.orElse (fun _ => c.url)

/-- Python `min(xs, key=k)`: left fold keeping the first element with the
strictly smallest key. -/
def pyMinBy {β : Type} (key : β → Int) : β → List β → β
  | best, [] => best
  | best, x :: xs => pyMinBy key (if key x < key best then x else best) xs

inductive Strategy where
  | branch
  | latest
  | first
  | error
deriving DecidableEq

/-- Linear scan for `pr.get("head", {}).get("ref") == branch`. -/
def findBranch {υ : Type} (b : String) : List (PrCandidate υ) → Option (PrCandidate υ)
  | [] => none
  | c :: cs => if c.head_ref = some b then some c else findBranch b cs

/-- The dispatch of `resolve_pr_url` over the general open-PR candidate list
(git_pr_resolver.py lines 171-193).  `Except.error ()` models the raised
`ValueError`; the returned value is `html_url or url` of the selected
candidate. -/
def resolve_from_open_list {υ : Type} (strategy : Strategy) (branch : Option String) :
    List (PrCandidate υ) → Except Unit (Option υ)
  | [] => Except.error ()
  | c :: cs =>
    match strategy, branch with
    | Strategy.branch, some b =>
      match findBranch b (c :: cs) with
      | some m => Except.ok (prUrlOf m)
      | none => Except.error ()
    | Strategy.latest, _ => Except.ok (prUrlOf c)
    | Strategy.first, _ => Except.ok (prUrlOf (pyMinBy candKey c cs))
    | _, _ => Except.ok (prUrlOf c)

/-! ## HTTP retry executor

Source: `_retry_http_request` (server.py lines 157-216).  The environment is
modelled by a finite *script*: the list of outcomes produced by successive
invocations of `request_fn` (a network-level error, possibly a timeout, or a
response).  Each loop iteration consumes exactly one script element, so the
recursion is structural; `outOfScript` marks the model artifact of the script
running out mid-loop.  Print statements are dropped; sleeps and requests are
recorded as events.  The executor is generic over the response type `ρ`, the
mutable state `σ` threaded through the caller-supplied status handler (the
Python handler mutates nonlocal variables and headers), and the payload `π`
recorded with each issued request (the REST fetch records the Authorization
scheme in force).
-/

inductive Ev (π : Type) where
  | request (info : π) (attempt : Nat)
  | response (status : Nat)
  | sleepBackoff (attempt : Nat)
  | rateLimitSleep
  | authFallback
deriving DecidableEq

inductive Outcome (ρ : Type) where
  | netErr (timeout : Bool)
  | resp (r : ρ)
deriving DecidableEq

inductive ExecRes (ρ : Type) where
  | ret (r : ρ) (rest : List (Outcome ρ))
  | raiseNet (timeout : Bool) (rest : List (Outcome ρ))
  | raiseStatus (r : ρ) (rest : List (Outcome ρ))
  | outOfScript
deriving DecidableEq

/-- `if status_handler: action = await status_handler(response, attempt)`:
apply the optional handler; without one the state is unchanged and no retry
is signalled. -/
def applyHandler {ρ σ π : Type}
    (handler : Option (ρ → Nat → σ → σ × Bool × List (Ev π)))
    (r : ρ) (att : Nat) (s : σ) : σ × Bool × List (Ev π) :=
  match handler with
  | none => (s, false, [])
  | some hd => hd r att s

theorem applyHandler_some {ρ σ π : Type}
    (hd : ρ → Nat → σ → σ × Bool × List (Ev π)) (r : ρ) (att : Nat) (s : σ) :
    applyHandler (some hd) r att s = hd r att s := rfl

theorem applyHandler_none {ρ σ π : Type} (r : ρ) (att : Nat) (s : σ) :
    applyHandler (π := π) none r att s = (s, false, []) := rfl

/-- `_retry_http_request`.  `status r` is `r.status_code`; `reqInfo` is the
request metadata recorded in the trace; `handler` is the optional
`status_handler`, returning (new state, retry?, events it performed);
`raise_for_status` returns the response for 2xx statuses and raises
`httpx.HTTPStatusError` otherwise (modelled by `raiseStatus`). -/
def retry_http_request {ρ σ π : Type} (status : ρ → Nat) (reqInfo : σ → π)
    (handler : Option (ρ → Nat → σ → σ × Bool × List (Ev π))) (maxRetries : Nat) :
    List (Outcome ρ) → Nat → σ → ExecRes ρ × σ × List (Ev π)
  | [], _, s => (ExecRes.outOfScript, s, [])
  | o :: rest, att, s =>
    match o with
    | Outcome.netErr t =>
      if att < maxRetries then
        let next := retry_http_request status reqInfo handler maxRetries rest (att + 1) s
        (next.1, next.2.1, Ev.request (reqInfo s) att :: Ev.sleepBackoff att :: next.2.2)
      else (ExecRes.raiseNet t rest, s, [Ev.request (reqInfo s) att])
    | Outcome.resp r =>
      let hres := applyHandler handler r att s
      let base := Ev.request (reqInfo s) att :: Ev.response (status r) :: hres.2.2
      if hres.2.1 then
        let next := retry_http_request status reqInfo handler maxRetries rest att hres.1
        (next.1, next.2.1, base ++ next.2.2)
      else if 500 ≤ status r ∧ status r < 600 ∧ att < maxRetries then
        let next := retry_http_request status reqInfo handler maxRetries rest (att + 1) hres.1
        (next.1, next.2.1, base ++ Ev.sleepBackoff att :: next.2.2)
      else if 200 ≤ status r ∧ status r < 300 then
        (ExecRes.ret r rest, hres.1, base)
      else (ExecRes.raiseStatus r rest, hres.1, base)

/-! ## REST comment fetcher

Source: `fetch_pr_comments` (server.py lines 459-672) with its nested
`handle_rest_status` (lines 528-587).  A `RestResponse` carries the fields of
the HTTP response the code inspects: status code, the `Retry-After` and
`X-RateLimit-Remaining` headers, the JSON body (`some page` when it is a list
of objects, `none` otherwise), and whether the `Link` header carries a
`rel="next"` entry.  The sleep durations computed from `Retry-After` /
`X-RateLimit-Reset` only feed `asyncio.sleep` and are not modelled; the sleep
itself is recorded as a `rateLimitSleep` event.
-/

inductive Auth where
  | noAuth
  | bearer
  | legacy
deriving DecidableEq

structure RestResponse (α : Type) where
  status : Nat
  retryAfter : Option String
  remaining : Option String
  body : Option (List α)
  next : Bool
deriving DecidableEq

structure FetchSt (α : Type) where
  auth : Auth
  usedTokenFallback : Bool
  hadServerError : Bool
  comments : List α
  pageCount : Nat
deriving DecidableEq

inductive FetchResult (α : Type) where
  | ok (v : Option (List α))
  | raised
  | outOfScript
deriving DecidableEq

def restStatusOf {α : Type} (r : RestResponse α) : Nat := r.status

/-- `handle_rest_status` (server.py lines 528-587): record 5xx, fall back from
the Bearer scheme to the legacy token scheme on a first 401, and sleep-retry
on a 429/403 carrying a truthy `Retry-After` header or a zero
`X-RateLimit-Remaining`. -/
def handle_rest_status {α : Type} (token : Bool) (r : RestResponse α) (_attempt : Nat)
    (s : FetchSt α) : FetchSt α × Bool × List (Ev Auth) :=
  let s := if 500 ≤ r.status ∧ r.status < 600 then { s with hadServerError := true } else s
  if r.status = 401 ∧ token ∧ ¬s.usedTokenFallback ∧ s.auth = Auth.bearer then
    ({ s with auth := Auth.legacy, usedTokenFallback := true }, true, [Ev.authFallback])
  else if (r.status = 429 ∨ r.status = 403) ∧
      (r.retryAfter.getD "" ≠ "" ∨ r.remaining = some "0") then
    (s, true, [Ev.rateLimitSleep])
  else (s, false, [])

/-- The `while url:` pagination loop of `fetch_pr_comments` (lines 524-663).
Each iteration runs the retry executor with `handle_rest_status`; the fuel is
an upper bound on iterations (each iteration consumes at least one script
element, so `script.length` fuel is enough). -/
def fetchGo {α : Type} (token : Bool) (maxRetries maxPages maxComments : Nat) :
    Nat → List (Outcome (RestResponse α)) → FetchSt α →
      FetchResult α × FetchSt α × List (Ev Auth)
  | 0, _, s => (FetchResult.outOfScript, s, [])
  | fuel + 1, script, s =>
    match retry_http_request restStatusOf FetchSt.auth
        (some (handle_rest_status token)) maxRetries script 0 s with
    | (ExecRes.outOfScript, s1, evs) => (FetchResult.outOfScript, s1, evs)
    | (ExecRes.raiseNet t _, s1, evs) =>
      ((if t then FetchResult.ok none else FetchResult.raised), s1, evs)
    | (ExecRes.raiseStatus r _, s1, evs) =>
      ((if 500 ≤ r.status ∧ r.status < 600 then FetchResult.ok none else FetchResult.raised),
        s1, evs)
    | (ExecRes.ret r rest, s1, evs) =>
      if s1.hadServerError then (FetchResult.ok none, s1, evs)
      else
        match r.body with
        | none => (FetchResult.ok none, s1, evs)
        | some page =>
          let s2 := { s1 with comments := s1.comments ++ page, pageCount := s1.pageCount + 1 }
          if maxPages ≤ s2.pageCount ∨ maxComments ≤ s2.comments.length then
            (FetchResult.ok (some s2.comments), s2, evs)
          else if r.next then
            let next := fetchGo token maxRetries maxPages maxComments fuel rest s2
            (next.1, next.2.1, evs ++ next.2.2)
          else (FetchResult.ok (some s2.comments), s2, evs)

/-- `fetch_pr_comments`: initial headers carry `Bearer` authorization iff a
token is configured; returns the result together with the final state and the
event trace. -/
def fetch_pr_comments {α : Type} (token : Bool) (maxRetries maxPages maxComments : Nat)
    (script : List (Outcome (RestResponse α))) :
    FetchResult α × FetchSt α × List (Ev Auth) :=
  fetchGo token maxRetries maxPages maxComments (script.length + 1) script
    { auth := if token then Auth.bearer else Auth.noAuth
      usedTokenFallback := false
      hadServerError := false
      comments := []
      pageCount := 0 }

/-! ## GraphQL comment fetcher

Source: `fetch_pr_comments_graphql` (server.py lines 255-456).  A page's
review threads are flattened into a comment list by the source; the flattened
list is abstracted as `GqlPage.comments` (the claims settled here do not
depend on the flattening).  `GqlBody.hasErrors` models a top-level `errors`
key in the JSON body; `prData = none` models a missing/null
`data.repository.pullRequest`.  The executor runs with no status handler,
exactly as in the source. -/

structure GqlPage (α : Type) where
  comments : List α
  hasNextPage : Bool
deriving DecidableEq

structure GqlBody (α : Type) where
  hasErrors : Bool
  prData : Option (GqlPage α)
deriving DecidableEq

structure GqlResponse (α : Type) where
  status : Nat
  body : GqlBody α
deriving DecidableEq

def gqlStatusOf {α : Type} (r : GqlResponse α) : Nat := r.status

/-- The `while has_next_page and len(all_comments) < max_comments_v:` loop of
`fetch_pr_comments_graphql` (lines 356-441). -/
def gqlGo {α : Type} (maxRetries maxComments : Nat) :
    Nat → List (Outcome (GqlResponse α)) → List α → Bool → FetchResult α × List (Ev Unit)
  | _, _, acc, false => (FetchResult.ok (some acc), [])
  | fuel, script, acc, true =>
    if maxComments ≤ acc.length then (FetchResult.ok (some acc), [])
    else
      match fuel with
      | 0 => (FetchResult.outOfScript, [])
      | fuel + 1 =>
        match retry_http_request gqlStatusOf (fun _ => ()) none maxRetries script 0 () with
        | (ExecRes.outOfScript, _, evs) => (FetchResult.outOfScript, evs)
        | (ExecRes.raiseNet t _, _, evs) =>
          ((if t then FetchResult.ok none else FetchResult.raised), evs)
        | (ExecRes.raiseStatus _ _, _, evs) => (FetchResult.raised, evs)
        | (ExecRes.ret r rest, _, evs) =>
          if r.body.hasErrors then (FetchResult.ok none, evs)
          else
            match r.body.prData with
            | none => (FetchResult.ok none, evs)
            | some page =>
              let next := gqlGo maxRetries maxComments fuel rest
                (acc ++ page.comments) page.hasNextPage
              (next.1, evs ++ next.2)

/-- `fetch_pr_comments_graphql`: a missing token is a hard failure before any
HTTP request is issued (lines 292-295). -/
def fetch_pr_comments_graphql {α : Type} (token : Bool) (maxRetries maxComments : Nat)
    (script : List (Outcome (GqlResponse α))) : FetchResult α × List (Ev Unit) :=
  if token then gqlGo maxRetries maxComments (script.length + 1) script [] true
  else (FetchResult.ok none, [])

/-! ## Tool-level wrapper

Source: `ReviewSpecGenerator.fetch_pr_review_comments` (server.py lines
1107-1185).  The underlying GraphQL fetch outcome is abstracted as a
parameter (`none` models a `None` return from the fetcher); a `ValueError`
raised by URL parsing/resolution is the only path to the error payload. -/

inductive CommentResult (α : Type) where
  | comment (c : α)
  | errorMsg
deriving DecidableEq

def fetch_pr_review_comments {α : Type} (pr_url : String) (fetched : Option (List α)) :
    List (CommentResult α) :=
  match get_pr_info pr_url with
  | none => [CommentResult.errorMsg]
  | some _ =>
    match fetched with
    | none => []
    | some l => l.map CommentResult.comment

/-! ## Event trace helpers -/

def Ev.isRequest {π : Type} : Ev π → Bool
  | Ev.request _ _ => true
  | _ => false

def Ev.isBackoffSleep {π : Type} : Ev π → Bool
  | Ev.sleepBackoff _ => true
  | _ => false

def Ev.isRateLimitSleep {π : Type} : Ev π → Bool
  | Ev.rateLimitSleep => true
  | _ => false

def Ev.isAuthFallback {π : Type} : Ev π → Bool
  | Ev.authFallback => true
  | _ => false

/-- An event a status handler may emit without confusing the executor trace:
anything but a request or a backoff sleep (those are emitted by the executor
itself). -/
def Ev.passive {π : Type} : Ev π → Bool
  | Ev.request _ _ => false
  | Ev.sleepBackoff _ => false
  | _ => true

/-- A 5xx response appears in the trace. -/
def has5xxResponse {π : Type} : List (Ev π) → Bool
  | [] => false
  | Ev.response st :: t => (500 ≤ st ∧ st < 600 : Bool) || has5xxResponse t
  | _ :: t => has5xxResponse t

/-- Every request event carries the number of backoff sleeps that precede it:
handler-driven retries leave the attempt counter unchanged, backoff retries
increment it. -/
def attemptsOk {π : Type} : Nat → List (Ev π) → Bool
  | _, [] => true
  | a, Ev.request _ a2 :: t => a2 == a && attemptsOk a t
  | a, Ev.sleepBackoff a2 :: t => a2 == a && attemptsOk (a + 1) t
  | a, _ :: t => attemptsOk a t

/-! ## Statement helpers -/

/-- The shape the `get_pr_info` regex accepts, stated declaratively:
`https://` + nonempty slash-free host, owner and repo, `/pull/`, a nonempty
run of Unicode decimal digits, and a tolerated suffix per `tailOk`. -/
def prShape (s h o r n : List Char) : Prop :=
  h ≠ [] ∧ o ≠ [] ∧ r ≠ [] ∧ n ≠ [] ∧
  (∀ x ∈ h, x ≠ '/') ∧ (∀ x ∈ o, x ≠ '/') ∧ (∀ x ∈ r, x ≠ '/') ∧
  (∀ x ∈ n, isPyDigit x = true) ∧
  ∃ t, tailOk t = true ∧ s = canonical_pr_url h o r n ++ t

/-- A successful page response: HTTP 200, a JSON list body, and a `Link`
header that has a `rel="next"` entry iff `nx`. -/
def pageResp {α : Type} (pg : List α) (nx : Bool) : RestResponse α :=
  { status := 200, retryAfter := none, remaining := none, body := some pg, next := nx }

/-- A script consisting solely of successful page responses. -/
def pagesScript {α : Type} (ps : List (List α × Bool)) : List (Outcome (RestResponse α)) :=
  ps.map (fun p => Outcome.resp (pageResp p.1 p.2))

/-- Reference pagination recursion, mirroring the loop structure of
`fetch_pr_comments` on all-success scripts: append the whole page, count it,
stop when a safety bound is reached or the `Link` header has no next entry.
Returns the final comment list and page count; `none` when the supplied page
list runs out first. -/
def paginate {α : Type} (maxPages maxComments : Nat) :
    List (List α × Bool) → List α → Nat → Option (List α × Nat)
  | [], _, _ => none
  | p :: ps, acc, pc =>
    let acc2 := acc ++ p.1
    let pc2 := pc + 1
    if maxPages ≤ pc2 ∨ maxComments ≤ acc2.length then some (acc2, pc2)
    else if p.2 then paginate maxPages maxComments ps acc2 pc2
    else some (acc2, pc2)

/-- The event trace of `g` successful page fetches under a fixed auth
scheme. -/
def cleanTrace {π : Type} (info : π) : Nat → List (Ev π)
  | 0 => []
  | g + 1 => Ev.request info 0 :: Ev.response 200 :: cleanTrace info g

/-- A 403 response carrying neither a `Retry-After` header nor
`X-RateLimit-Remaining: 0`: GitHub's secondary (abuse-detection) rate limit
signal. -/
def secondary403 {α : Type} : RestResponse α :=
  { status := 403, retryAfter := none, remaining := none, body := none, next := false }

/-- A 503 server-error response. -/
def server503 {α : Type} : RestResponse α :=
  { status := 503, retryAfter := none, remaining := none, body := none, next := false }

/-- A 401 unauthorized response. -/
def unauthorized401 {α : Type} : RestResponse α :=
  { status := 401, retryAfter := none, remaining := none, body := none, next := false }

/-! ## Backoff calculator: claim C4 -/

/-- Claim C4: for every attempt and every jitter value in `[0, 0.25)`, the
backoff delay equals `min(ceiling, 0.5 * 2^attempt + jitter)` (the ceiling
configured in `_calculate_backoff_delay` is 5.0), lies in the interval
`[0.5 * 2^attempt, 0.5 * 2^attempt + 0.25]` clipped to the ceiling, and for a
fixed jitter is monotonically non-decreasing in the attempt number. -/
theorem backoff_delay_spec (attempt : Nat) (j : ℚ) (h0 : 0 ≤ j) (h1 : j < 1 / 4) :
    calculate_backoff_delay attempt j = min 5 ((1 / 2) * 2 ^ attempt + j) ∧
    min 5 ((1 / 2) * 2 ^ attempt) ≤ calculate_backoff_delay attempt j ∧
    calculate_backoff_delay attempt j ≤ min 5 ((1 / 2) * 2 ^ attempt + 1 / 4) ∧
    ∀ a2 : Nat, attempt ≤ a2 →
      calculate_backoff_delay attempt j ≤ calculate_backoff_delay a2 j := by
  unfold calculate_backoff_delay
  refine ⟨rfl, ?_, ?_, ?_⟩
  · exact min_le_min le_rfl (by linarith)
  · exact min_le_min le_rfl (by linarith)
  · intro a2 hle
    refine min_le_min le_rfl ?_
    have hp : (2 : ℚ) ^ attempt ≤ 2 ^ a2 := by
      exact pow_le_pow_right₀ (by norm_num) hle
    linarith

/-- Witness for C4 at attempt 3 with jitter 1/8. -/
theorem backoff_delay_spec_witness :
    (0 : ℚ) ≤ 1 / 8 ∧ (1 / 8 : ℚ) < 1 / 4 ∧
    (calculate_backoff_delay 3 (1 / 8) = min 5 ((1 / 2) * 2 ^ 3 + 1 / 8) ∧
     min 5 ((1 / 2) * 2 ^ 3) ≤ calculate_backoff_delay 3 (1 / 8) ∧
     calculate_backoff_delay 3 (1 / 8) ≤ min 5 ((1 / 2) * 2 ^ 3 + 1 / 4) ∧
     ∀ a2 : Nat, 3 ≤ a2 →
       calculate_backoff_delay 3 (1 / 8) ≤ calculate_backoff_delay a2 (1 / 8)) :=
  ⟨by norm_num, by norm_num, backoff_delay_spec 3 (1 / 8) (by norm_num) (by norm_num)⟩

/-! ## Resolver strategy `first`: claim C8 -/

theorem pyMinBy_mem {β : Type} (key : β → Int) (b : β) (l : List β) :
    pyMinBy key b l ∈ b :: l := by
  induction l generalizing b with
  | nil => simp [pyMinBy]
  | cons x xs ih =>
    simp only [pyMinBy]
    by_cases h : key x < key b
    · simp only [if_pos h]
      have := ih x
      rcases List.mem_cons.mp this with h1 | h1
      · simp [h1]
      · simp [List.mem_cons, h1]
    · simp only [if_neg h]
      have := ih b
      rcases List.mem_cons.mp this with h1 | h1
      · simp [h1]
      · simp [List.mem_cons, h1]

theorem pyMinBy_le {β : Type} (key : β → Int) (b : β) (l : List β) :
    ∀ x ∈ b :: l, key (pyMinBy key b l) ≤ key x := by
  induction l generalizing b with
  | nil =>
    intro x hx
    rcases List.mem_cons.mp hx with h1 | h1
    · subst h1; simp [pyMinBy]
    · simp at h1
  | cons y ys ih =>
    intro x hx
    simp only [pyMinBy]
    have hkey : key (if key y < key b then y else b) ≤ key b ∧
        key (if key y < key b then y else b) ≤ key y := by
      by_cases h : key y < key b
      · rw [if_pos h]; omega
      · rw [if_neg h]; omega
    have hhead : key (pyMinBy key (if key y < key b then y else b) ys) ≤
        key (if key y < key b then y else b) :=
      ih (if key y < key b then y else b) (if key y < key b then y else b) (by simp)
    rcases List.mem_cons.mp hx with h1 | h1
    · subst h1; omega
    · rcases List.mem_cons.mp h1 with h2 | h2
      · subst h2; omega
      · exact ih (if key y < key b then y else b) x (by simp [h2])

theorem pyMinBy_unique_min {β : Type} (key : β → Int) (b : β) (l : List β) (m : β)
    (hm : m ∈ b :: l) (hmin : ∀ c ∈ b :: l, c = m ∨ key m < key c) :
    pyMinBy key b l = m := by
  have h1 := pyMinBy_mem key b l
  have h2 := pyMinBy_le key b l m hm
  rcases hmin _ h1 with h | h
  · exact h
  · omega

/-- Claim C8: with `select_strategy = "first"` and a non-empty open-PR
candidate list whose entry `m` has the unique numerically smallest PR number
and an `html_url`, the resolver returns `m`'s html_url, and the result is
independent of the order of the list (any permutation yields the same URL).
Instantiated at numbers `[5, 2, 10]` this selects PR number 2. -/
theorem resolve_first_smallest_number {υ : Type} (cands : List (PrCandidate υ))
    (m : PrCandidate υ) (u : υ) (b : Option String)
    (hmem : m ∈ cands) (hmin : ∀ c ∈ cands, c = m ∨ candKey m < candKey c)
    (hurl : m.html_url = some u) :
    resolve_from_open_list Strategy.first b cands = Except.ok (some u) ∧
    ∀ l2 : List (PrCandidate υ), cands.Perm l2 →
      resolve_from_open_list Strategy.first b l2 = Except.ok (some u) := by
  have main : ∀ l : List (PrCandidate υ), m ∈ l →
      (∀ c ∈ l, c = m ∨ candKey m < candKey c) →
      resolve_from_open_list Strategy.first b l = Except.ok (some u) := by
    intro l hm hmn
    match l, hm with
    | c :: cs, hm =>
      have : pyMinBy candKey c cs = m := pyMinBy_unique_min candKey c cs m hm hmn
      simp [resolve_from_open_list, this, prUrlOf, hurl, Option.orElse]
  refine ⟨main cands hmem hmin, ?_⟩
  intro l2 hperm
  exact main l2 (hperm.mem_iff.mp hmem) (fun c hc => hmin c (hperm.mem_iff.mpr hc))

/-! ## PR URL parsing: claim C5 -/

theorem takedrop_split {p : Char → Bool} (a : List Char) (c : Char) (rest : List Char)
    (ha : ∀ x ∈ a, p x = true) (hc : p c = false) :
    (a ++ c :: rest).takeWhile p = a ∧ (a ++ c :: rest).dropWhile p = c :: rest := by
  induction a with
  | nil => simp [List.takeWhile_cons, List.dropWhile_cons, hc]
  | cons y ys ih =>
    have hy : p y = true := ha y (by simp)
    have ihy := ih (fun x hx => ha x (by simp [hx]))
    simp [List.takeWhile_cons, List.dropWhile_cons, hy, ihy.1, ihy.2]

theorem takeWhile_all_append {p : Char → Bool} (a b : List Char)
    (ha : ∀ x ∈ a, p x = true) :
    (a ++ b).takeWhile p = a ++ b.takeWhile p ∧ (a ++ b).dropWhile p = b.dropWhile p := by
  induction a with
  | nil => simp
  | cons y ys ih =>
    have hy : p y = true := ha y (by simp)
    have ihy := ih (fun x hx => ha x (by simp [hx]))
    simp [List.takeWhile_cons, List.dropWhile_cons, hy, ihy.1, ihy.2]

theorem dropWhile_head_false {p : Char → Bool} :
    ∀ (l : List Char) (x : Char) (rest : List Char),
      l.dropWhile p = x :: rest → p x = false := by
  intro l
  induction l with
  | nil => intro x rest h; simp at h
  | cons c cs ih =>
    intro x rest h
    rw [List.dropWhile_cons] at h
    by_cases hc : p c
    · rw [if_pos hc] at h
      exact ih x rest h
    · rw [if_neg hc] at h
      obtain ⟨h1, _⟩ := List.cons.inj h
      subst h1
      simpa using hc

theorem segUntilSlash_some (cs a rest : List Char)
    (h : segUntilSlash cs = some (a, rest)) :
    a ≠ [] ∧ (∀ x ∈ a, x ≠ '/') ∧ cs = a ++ '/' :: rest := by
  unfold segUntilSlash at h
  split at h
  case _ => exact absurd h (by simp)
  case _ x rest0 hd =>
    by_cases he : cs.takeWhile (fun c => c ≠ '/') = []
    · rw [if_pos he] at h
      exact absurd h (by simp)
    · rw [if_neg he] at h
      simp only [Option.some.injEq, Prod.mk.injEq] at h
      obtain ⟨h1, h2⟩ := h
      refine ⟨?_, ?_, ?_⟩
      · rw [← h1]; exact he
      · intro x2 hx2
        rw [← h1] at hx2
        have := List.mem_takeWhile_imp hx2
        simpa using this
      · have hx : x = '/' := by
          have := dropWhile_head_false cs x rest0 hd
          simpa using this
        subst hx
        rw [← h1, ← h2, ← hd]
        exact (List.takeWhile_append_dropWhile _ _).symm

theorem segUntilSlash_build (a rest : List Char) (ha : a ≠ [])
    (hs : ∀ x ∈ a, x ≠ '/') :
    segUntilSlash (a ++ '/' :: rest) = some (a, rest) := by
  have hsplit := takedrop_split (p := fun c => decide (c ≠ '/')) a '/' rest
    (fun x hx => by simpa using hs x hx) (by simp)
  unfold segUntilSlash
  rw [hsplit.1, hsplit.2]
  simp [ha]

theorem segPull_some (cs a rest : List Char) (h : segPull cs = some (a, rest)) :
    a ≠ [] ∧ (∀ x ∈ a, x ≠ '/') ∧
    cs = a ++ '/' :: 'p' :: 'u' :: 'l' :: 'l' :: '/' :: rest := by
  unfold segPull at h
  split at h
  case _ rest1 hd =>
    by_cases he : cs.takeWhile (fun c => c ≠ '/') = []
    · rw [if_pos he] at h
      exact absurd h (by simp)
    · rw [if_neg he] at h
      simp only [Option.some.injEq, Prod.mk.injEq] at h
      obtain ⟨h1, h2⟩ := h
      refine ⟨?_, ?_, ?_⟩
      · rw [← h1]; exact he
      · intro x2 hx2
        rw [← h1] at hx2
        have := List.mem_takeWhile_imp hx2
        simpa using this
      · rw [← h1, ← h2, ← hd]
        exact (List.takeWhile_append_dropWhile _ _).symm
  case _ => simp at h

theorem segPull_build (a rest : List Char) (ha : a ≠ [])
    (hs : ∀ x ∈ a, x ≠ '/') :
    segPull (a ++ '/' :: 'p' :: 'u' :: 'l' :: 'l' :: '/' :: rest) = some (a, rest) := by
  have hsplit := takedrop_split (p := fun c => decide (c ≠ '/')) a '/'
    ('p' :: 'u' :: 'l' :: 'l' :: '/' :: rest)
    (fun x hx => by simpa using hs x hx) (by simp)
  unfold segPull
  rw [hsplit.1, hsplit.2]
  simp [ha]

theorem tailOk_not_digit (t : List Char) (ht : tailOk t = true) :
    t.takeWhile isPyDigit = [] ∧ t.dropWhile isPyDigit = t := by
  cases t with
  | nil => simp
  | cons c cs =>
    have hc : isPyDigit c = false := by
      simp only [tailOk, Bool.or_eq_true, Bool.and_eq_true, beq_iff_eq] at ht
      rcases ht with ⟨h1, _⟩ | ⟨h1, _⟩
      · rcases h1 with (h | h) | h <;> subst h <;> decide
      · subst h1; decide
    simp [List.takeWhile_cons, List.dropWhile_cons, hc]

theorem parse_some_shape (s h o r n : List Char)
    (hp : parse_pr_path s = some (h, o, r, n)) : prShape s h o r n := by
  unfold parse_pr_path at hp
  by_cases hpre : "https://".toList.isPrefixOf s
  · rw [if_pos hpre] at hp
    obtain ⟨rest, hrest⟩ := List.isPrefixOf_iff_prefix.mp hpre
    have hdrop : s.drop 8 = rest := by
      rw [← hrest]
      exact List.drop_left' rfl
    rcases h1 : segUntilSlash (s.drop 8) with _ | p1
    · rw [h1] at hp; simp at hp
    rw [h1] at hp
    simp only [Option.some_bind] at hp
    rcases h2 : segUntilSlash p1.2 with _ | p2
    · rw [h2] at hp; simp at hp
    rw [h2] at hp
    simp only [Option.some_bind] at hp
    rcases h3 : segPull p2.2 with _ | p3
    · rw [h3] at hp; simp at hp
    rw [h3] at hp
    simp only [Option.some_bind] at hp
    by_cases hnum : p3.2.takeWhile isPyDigit = []
    · rw [if_pos hnum] at hp
      exact absurd hp (by simp)
    rw [if_neg hnum] at hp
    by_cases htl : tailOk (p3.2.dropWhile isPyDigit) = true
    · rw [if_pos htl] at hp
      simp only [Option.some.injEq, Prod.mk.injEq] at hp
      obtain ⟨hh, ho, hr, hn⟩ := hp
      obtain ⟨ha1, hb1, hc1⟩ := segUntilSlash_some _ _ _ h1
      obtain ⟨ha2, hb2, hc2⟩ := segUntilSlash_some _ _ _ h2
      obtain ⟨ha3, hb3, hc3⟩ := segPull_some _ _ _ h3
      refine ⟨by rw [← hh]; exact ha1, by rw [← ho]; exact ha2,
        by rw [← hr]; exact ha3, ?_, ?_, ?_, ?_, ?_, ?_⟩
      · rw [← hn]
        exact hnum
      · intro x hx; rw [← hh] at hx; exact hb1 x hx
      · intro x hx; rw [← ho] at hx; exact hb2 x hx
      · intro x hx; rw [← hr] at hx; exact hb3 x hx
      · intro x hx
        rw [← hn] at hx
        exact List.mem_takeWhile_imp hx
      · refine ⟨p3.2.dropWhile isPyDigit, htl, ?_⟩
        have hrest2 : rest = p1.1 ++ '/' :: p1.2 := by rw [← hdrop, hc1]
        have hsplit2 : p3.2 =
            p3.2.takeWhile isPyDigit ++ p3.2.dropWhile isPyDigit :=
          (List.takeWhile_append_dropWhile _ _).symm
        rw [← hrest, hrest2, hc2, hc3, ← hh, ← ho, ← hr, ← hn]
        conv_lhs => rw [hsplit2]
        have hpl : "/pull/".toList = ['/', 'p', 'u', 'l', 'l', '/'] := rfl
        simp [canonical_pr_url, hpl, List.append_assoc]
    · rw [if_neg htl] at hp
      exact absurd hp (by simp)
  · rw [if_neg hpre] at hp
    exact absurd hp (by simp)

theorem shape_parse_some (s h o r n : List Char) (hs : prShape s h o r n) :
    parse_pr_path s = some (h, o, r, n) := by
  obtain ⟨hh, ho, hr, hn, hsh, hso, hsr, hdig, t, htl, hst⟩ := hs
  subst hst
  have hshape : canonical_pr_url h o r n ++ t =
      "https://".toList ++
        (h ++ '/' :: (o ++ '/' :: (r ++ '/' :: 'p' :: 'u' :: 'l' :: 'l' :: '/' :: (n ++ t)))) := by
    simp [canonical_pr_url, List.append_assoc]
  have hpre : "https://".toList.isPrefixOf (canonical_pr_url h o r n ++ t) := by
    rw [hshape]
    exact List.isPrefixOf_iff_prefix.mpr ⟨_, rfl⟩
  unfold parse_pr_path
  rw [if_pos hpre]
  have hdrop : (canonical_pr_url h o r n ++ t).drop 8 =
      h ++ '/' :: (o ++ '/' :: (r ++ '/' :: 'p' :: 'u' :: 'l' :: 'l' :: '/' :: (n ++ t))) := by
    rw [hshape]
    exact List.drop_left' rfl
  rw [hdrop, segUntilSlash_build h _ hh hsh]
  simp only [Option.some_bind]
  rw [segUntilSlash_build o _ ho hso]
  simp only [Option.some_bind]
  rw [segPull_build r _ hr hsr]
  simp only [Option.some_bind]
  have hdt := tailOk_not_digit t htl
  have htake := takeWhile_all_append (p := isPyDigit) n t hdig
  have htw : (n ++ t).takeWhile isPyDigit = n := by
    rw [htake.1, hdt.1, List.append_nil]
  have hdw : (n ++ t).dropWhile isPyDigit = t := by
    rw [htake.2, hdt.2]
  rw [htw, hdw, if_neg hn, if_pos htl]

/-- Counterexample to claim C5 as stated: the claim quantifies over owner
strings with no slash, which includes the empty owner, yet
`https://h//r/pull/1` raises `ValueError`; and the claim asserts every
string not of the URL shape raises, yet an otherwise-valid URL followed by a
single trailing newline parses successfully (Python `$` matches just before
a string-final newline), as does a pull number written with a non-ASCII
Unicode decimal digit such as U+0663 ARABIC-INDIC DIGIT THREE (`\d` in a
str pattern matches all of category Nd). -/
theorem get_pr_info_counterexample :
    get_pr_info "https://h//r/pull/1" = none ∧
    get_pr_info "https://h/o/r/pull/1\n" = some ("h", "o", "r", "1") ∧
    get_pr_info "https://h/o/r/pull/٣" = some ("h", "o", "r", "٣") := by
  refine ⟨?_, ?_, ?_⟩ <;> rfl

/-- Claim C5 (amended): for nonempty slash-free host, owner and repo and a
nonempty string n of Unicode decimal digits (category Nd, what Python `\d`
matches), `https://{host}/{owner}/{repo}/pull/{n}`
followed by a tolerated suffix (empty; a lone trailing newline; or `/`, `?`
or `#` followed by newline-free text and an optional final newline) parses to
exactly `(host, owner, repo, n)`; these are precisely the accepted inputs
(anything else raises `ValueError`); and parsing the canonical bare URL and
reconstructing it reproduces the original. -/
theorem get_pr_info_round_trip :
    (∀ s h o r n : List Char, parse_pr_path s = some (h, o, r, n) ↔ prShape s h o r n) ∧
    (∀ h o r n : List Char, h ≠ [] → o ≠ [] → r ≠ [] → n ≠ [] →
      (∀ x ∈ h, x ≠ '/') → (∀ x ∈ o, x ≠ '/') → (∀ x ∈ r, x ≠ '/') →
      (∀ x ∈ n, isPyDigit x = true) →
      parse_pr_path (canonical_pr_url h o r n) = some (h, o, r, n)) := by
  constructor
  · intro s h o r n
    exact ⟨parse_some_shape s h o r n, shape_parse_some s h o r n⟩
  · intro h o r n hh ho hr hn hsh hso hsr hdig
    exact shape_parse_some _ h o r n
      ⟨hh, ho, hr, hn, hsh, hso, hsr, hdig, [], rfl, by simp⟩

/-- Witness for C5 (amended) at the URL `https://g/a/b/pull/1`. -/
theorem get_pr_info_round_trip_witness :
    parse_pr_path (canonical_pr_url ['g'] ['a'] ['b'] ['1']) =
      some (['g'], ['a'], ['b'], ['1']) :=
  get_pr_info_round_trip.2 ['g'] ['a'] ['b'] ['1'] (by decide) (by decide) (by decide)
    (by decide) (by decide) (by decide) (by decide) (by decide)

/-- Witness for C8: candidates with PR numbers `[5, 2, 10]` (urls 50, 20,
100) select the URL of PR number 2, in both orders. -/
theorem resolve_first_smallest_number_witness :
    resolve_from_open_list Strategy.first none
      [⟨some 5, none, some 50, none⟩, ⟨some 2, none, some 20, none⟩,
        (⟨some 10, none, some 100, none⟩ : PrCandidate Nat)] = Except.ok (some 20) ∧
    resolve_from_open_list Strategy.first none
      [⟨some 10, none, some 100, none⟩, ⟨some 5, none, some 50, none⟩,
        (⟨some 2, none, some 20, none⟩ : PrCandidate Nat)] = Except.ok (some 20) := by
  constructor
  · exact (resolve_first_smallest_number _ ⟨some 2, none, some 20, none⟩ 20 none
      (by simp) (by decide) rfl).1
  · exact (resolve_first_smallest_number _ ⟨some 2, none, some 20, none⟩ 20 none
      (by simp) (by decide) rfl).1

/-! ## HTTP retry executor: claim C3 -/

theorem passive_not_backoff {π : Type} (e : Ev π) (h : e.passive = true) :
    e.isBackoffSleep = false := by
  cases e <;> simp_all [Ev.passive, Ev.isBackoffSleep]

theorem countP_backoff_passive {π : Type} (evs : List (Ev π))
    (hp : ∀ e ∈ evs, e.passive = true) : evs.countP Ev.isBackoffSleep = 0 := by
  rw [List.countP_eq_zero]
  intro e he
  simp [passive_not_backoff e (hp e he)]

theorem attemptsOk_append_passive {π : Type} (evs l : List (Ev π)) (a : Nat)
    (hp : ∀ e ∈ evs, e.passive = true) : attemptsOk a (evs ++ l) = attemptsOk a l := by
  induction evs with
  | nil => simp
  | cons e t ih =>
    have he : e.passive = true := hp e (by simp)
    have ht := ih (fun x hx => hp x (by simp [hx]))
    cases e with
    | request i a2 => simp [Ev.passive] at he
    | sleepBackoff a2 => simp [Ev.passive] at he
    | response st => simpa [attemptsOk] using ht
    | rateLimitSleep => simpa [attemptsOk] using ht
    | authFallback => simpa [attemptsOk] using ht

theorem attemptsOk_passive {π : Type} (evs : List (Ev π)) (a : Nat)
    (hp : ∀ e ∈ evs, e.passive = true) : attemptsOk a evs = true := by
  have := attemptsOk_append_passive evs [] a hp
  simpa using this

theorem retryRun_props {ρ σ π : Type} (status : ρ → Nat) (reqInfo : σ → π)
    (handler : Option (ρ → Nat → σ → σ × Bool × List (Ev π))) (m : Nat)
    (hpass : ∀ hd r a st, handler = some hd → ∀ e ∈ (hd r a st).2.2, e.passive = true) :
    ∀ (script : List (Outcome ρ)) (att : Nat) (s : σ), att ≤ m →
      ((retry_http_request status reqInfo handler m script att s).2.2.countP
          Ev.isBackoffSleep) + att ≤ m ∧
      attemptsOk att (retry_http_request status reqInfo handler m script att s).2.2 = true ∧
      (∀ r rest, (retry_http_request status reqInfo handler m script att s).1 =
          ExecRes.ret r rest → ∃ pre, script = pre ++ Outcome.resp r :: rest) ∧
      (∀ t rest, (retry_http_request status reqInfo handler m script att s).1 =
          ExecRes.raiseNet t rest → ∃ pre, script = pre ++ Outcome.netErr t :: rest) ∧
      (∀ r rest, (retry_http_request status reqInfo handler m script att s).1 =
          ExecRes.raiseStatus r rest → ∃ pre, script = pre ++ Outcome.resp r :: rest) := by
  intro script
  induction script with
  | nil =>
    intro att s hatt
    refine ⟨by simpa [retry_http_request] using hatt, by simp [retry_http_request, attemptsOk],
      ?_, ?_, ?_⟩ <;>
      · intro a b hab
        simp [retry_http_request] at hab
  | cons o rest ih =>
    intro att s hatt
    cases o with
    | netErr t =>
      by_cases hlt : att < m
      · have ihm := ih (att + 1) s hlt
        simp only [retry_http_request, if_pos hlt]
        refine ⟨?_, ?_, ?_, ?_, ?_⟩
        · have h := ihm.1
          simp [List.countP_cons, Ev.isBackoffSleep, Ev.isRequest]
          omega
        · simpa [attemptsOk] using ihm.2.1
        · intro r2 rest2 hr2
          obtain ⟨pre, hpre⟩ := ihm.2.2.1 r2 rest2 hr2
          exact ⟨Outcome.netErr t :: pre, by simp [hpre]⟩
        · intro t2 rest2 hr2
          obtain ⟨pre, hpre⟩ := ihm.2.2.2.1 t2 rest2 hr2
          exact ⟨Outcome.netErr t :: pre, by simp [hpre]⟩
        · intro r2 rest2 hr2
          obtain ⟨pre, hpre⟩ := ihm.2.2.2.2 r2 rest2 hr2
          exact ⟨Outcome.netErr t :: pre, by simp [hpre]⟩
      · simp only [retry_http_request, if_neg hlt]
        refine ⟨by simpa [List.countP_cons, Ev.isBackoffSleep] using hatt,
          by simp [attemptsOk], ?_, ?_, ?_⟩
        · intro r2 rest2 hr2
          simp at hr2
        · intro t2 rest2 hr2
          simp only [ExecRes.raiseNet.injEq] at hr2
          exact ⟨[], by simp [hr2.1, hr2.2]⟩
        · intro r2 rest2 hr2
          simp at hr2
    | resp r =>
      simp only [retry_http_request]
      set hres := applyHandler handler r att s with hhres
      have hpassr : ∀ e ∈ hres.2.2, e.passive = true := by
        rw [hhres]
        cases handler with
        | none => simp [applyHandler]
        | some hd => exact fun e he => hpass hd r att s rfl e he
      by_cases hretry : hres.2.1 = true
      · rw [if_pos hretry]
        dsimp only
        have ihm := ih att hres.1 hatt
        refine ⟨?_, ?_, ?_, ?_, ?_⟩
        · have h := ihm.1
          have hcp := countP_backoff_passive _ hpassr
          simp [List.countP_cons, List.countP_append, hcp, Ev.isBackoffSleep,
            List.append_eq]
          omega
        · simp only [attemptsOk, beq_self_eq_true, Bool.true_and, List.append_eq]
          rw [attemptsOk_append_passive _ _ _ hpassr]
          exact ihm.2.1
        · intro r2 rest2 hr2
          obtain ⟨pre, hpre⟩ := ihm.2.2.1 r2 rest2 hr2
          exact ⟨Outcome.resp r :: pre, by simp [hpre]⟩
        · intro t2 rest2 hr2
          obtain ⟨pre, hpre⟩ := ihm.2.2.2.1 t2 rest2 hr2
          exact ⟨Outcome.resp r :: pre, by simp [hpre]⟩
        · intro r2 rest2 hr2
          obtain ⟨pre, hpre⟩ := ihm.2.2.2.2 r2 rest2 hr2
          exact ⟨Outcome.resp r :: pre, by simp [hpre]⟩
      · rw [if_neg hretry]
        by_cases h5 : 500 ≤ status r ∧ status r < 600 ∧ att < m
        · rw [if_pos h5]
          dsimp only
          have ihm := ih (att + 1) hres.1 h5.2.2
          refine ⟨?_, ?_, ?_, ?_, ?_⟩
          · have h := ihm.1
            have hcp := countP_backoff_passive _ hpassr
            simp [List.countP_cons, List.countP_append, hcp, Ev.isBackoffSleep,
              List.append_eq]
            omega
          · simp only [attemptsOk, beq_self_eq_true, Bool.true_and, List.append_eq]
            rw [attemptsOk_append_passive _ _ _ hpassr]
            simp only [attemptsOk, beq_self_eq_true, Bool.true_and]
            exact ihm.2.1
          · intro r2 rest2 hr2
            obtain ⟨pre, hpre⟩ := ihm.2.2.1 r2 rest2 hr2
            exact ⟨Outcome.resp r :: pre, by simp [hpre]⟩
          · intro t2 rest2 hr2
            obtain ⟨pre, hpre⟩ := ihm.2.2.2.1 t2 rest2 hr2
            exact ⟨Outcome.resp r :: pre, by simp [hpre]⟩
          · intro r2 rest2 hr2
            obtain ⟨pre, hpre⟩ := ihm.2.2.2.2 r2 rest2 hr2
            exact ⟨Outcome.resp r :: pre, by simp [hpre]⟩
        · rw [if_neg h5]
          by_cases h2xx : 200 ≤ status r ∧ status r < 300
          · rw [if_pos h2xx]
            dsimp only
            refine ⟨?_, ?_, ?_, ?_, ?_⟩
            · have h := hatt
              have hcp := countP_backoff_passive _ hpassr
              simp [List.countP_cons, hcp, Ev.isBackoffSleep]
              omega
            · simp only [attemptsOk, beq_self_eq_true, Bool.true_and]
              exact attemptsOk_passive _ _ hpassr
            · intro r2 rest2 hr2
              simp only [ExecRes.ret.injEq] at hr2
              exact ⟨[], by simp [hr2.1, hr2.2]⟩
            · intro t2 rest2 hr2
              simp at hr2
            · intro r2 rest2 hr2
              simp at hr2
          · rw [if_neg h2xx]
            dsimp only
            refine ⟨?_, ?_, ?_, ?_, ?_⟩
            · have h := hatt
              have hcp := countP_backoff_passive _ hpassr
              simp [List.countP_cons, hcp, Ev.isBackoffSleep]
              omega
            · simp only [attemptsOk, beq_self_eq_true, Bool.true_and]
              exact attemptsOk_passive _ _ hpassr
            · intro r2 rest2 hr2
              simp at hr2
            · intro t2 rest2 hr2
              simp at hr2
            · intro r2 rest2 hr2
              simp only [ExecRes.raiseStatus.injEq] at hr2
              exact ⟨[], by simp [hr2.1, hr2.2]⟩

/-- Claim C3: for every run of the HTTP retry executor with `max_retries = m`
over a finite outcome script (the status handler can therefore signal
`"retry"` only finitely often) and a handler whose events are passive, the
number of backoff-counted retries (connection-error retries plus 5xx retries,
i.e. backoff sleeps) is at most `m`; every request is issued at the attempt
number equal to the count of preceding backoff sleeps, so handler-driven
retries never increment the attempt counter; and when the run completes it
either returns a response or raises the error of the last consumed outcome
(`ExecRes.ret` with the last outcome a response, `raiseNet` with the last
outcome a network error, or `raiseStatus` with the last outcome the
non-2xx response whose `raise_for_status` raised). -/
theorem retry_http_request_spec {ρ σ π : Type} (status : ρ → Nat) (reqInfo : σ → π)
    (handler : Option (ρ → Nat → σ → σ × Bool × List (Ev π))) (m : Nat)
    (script : List (Outcome ρ)) (s : σ)
    (hpass : ∀ hd r a st, handler = some hd → ∀ e ∈ (hd r a st).2.2, e.passive = true) :
    (retry_http_request status reqInfo handler m script 0 s).2.2.countP
        Ev.isBackoffSleep ≤ m ∧
    attemptsOk 0 (retry_http_request status reqInfo handler m script 0 s).2.2 = true ∧
    (∀ r rest, (retry_http_request status reqInfo handler m script 0 s).1 =
        ExecRes.ret r rest → ∃ pre, script = pre ++ Outcome.resp r :: rest) ∧
    (∀ t rest, (retry_http_request status reqInfo handler m script 0 s).1 =
        ExecRes.raiseNet t rest → ∃ pre, script = pre ++ Outcome.netErr t :: rest) ∧
    (∀ r rest, (retry_http_request status reqInfo handler m script 0 s).1 =
        ExecRes.raiseStatus r rest → ∃ pre, script = pre ++ Outcome.resp r :: rest) := by
  have h := retryRun_props status reqInfo handler m hpass script 0 s (Nat.zero_le m)
  exact ⟨by simpa using h.1, h.2.1, h.2.2.1, h.2.2.2.1, h.2.2.2.2⟩

/-- Witness for C3: one connection error followed by a 200 response, with
`max_retries = 1` and no status handler. -/
theorem retry_http_request_spec_witness :
    (retry_http_request (ρ := Nat) (σ := Unit) (π := Unit) (fun st => st)
        (fun _ => ()) none 1 [Outcome.netErr true, Outcome.resp 200] 0 ()).2.2.countP
        Ev.isBackoffSleep ≤ 1 ∧
    attemptsOk 0 (retry_http_request (ρ := Nat) (σ := Unit) (π := Unit) (fun st => st)
        (fun _ => ()) none 1 [Outcome.netErr true, Outcome.resp 200] 0 ()).2.2 = true ∧
    (∀ r rest, (retry_http_request (ρ := Nat) (σ := Unit) (π := Unit) (fun st => st)
        (fun _ => ()) none 1 [Outcome.netErr true, Outcome.resp 200] 0 ()).1 =
        ExecRes.ret r rest →
        ∃ pre, [Outcome.netErr true, Outcome.resp 200] = pre ++ Outcome.resp r :: rest) ∧
    (∀ t rest, (retry_http_request (ρ := Nat) (σ := Unit) (π := Unit) (fun st => st)
        (fun _ => ()) none 1 [Outcome.netErr true, Outcome.resp 200] 0 ()).1 =
        ExecRes.raiseNet t rest →
        ∃ pre, [Outcome.netErr true, Outcome.resp 200] = pre ++ Outcome.netErr t :: rest) ∧
    (∀ r rest, (retry_http_request (ρ := Nat) (σ := Unit) (π := Unit) (fun st => st)
        (fun _ => ()) none 1 [Outcome.netErr true, Outcome.resp 200] 0 ()).1 =
        ExecRes.raiseStatus r rest →
        ∃ pre, [Outcome.netErr true, Outcome.resp 200] = pre ++ Outcome.resp r :: rest) :=
  retry_http_request_spec (fun st => st) (fun _ => ()) none 1
    [Outcome.netErr true, Outcome.resp 200] ()
    (fun hd r a st h => by exact absurd h (by simp))

/-! ## REST fetcher: conservative 5xx policy (claim C1) -/

def Ev.isResponse {π : Type} : Ev π → Bool
  | Ev.response _ => true
  | _ => false

theorem has5xx_append {π : Type} (a b : List (Ev π)) :
    has5xxResponse (a ++ b) = (has5xxResponse a || has5xxResponse b) := by
  induction a with
  | nil => simp [has5xxResponse]
  | cons e t ih =>
    cases e <;> simp [has5xxResponse, ih, Bool.or_assoc]

theorem has5xx_no_response {π : Type} (evs : List (Ev π))
    (h : ∀ e ∈ evs, e.isResponse = false) : has5xxResponse evs = false := by
  induction evs with
  | nil => rfl
  | cons e t ih =>
    have he := h e (by simp)
    have ht := ih (fun x hx => h x (by simp [hx]))
    cases e <;> simp_all [has5xxResponse, Ev.isResponse]

theorem handle_rest_status_events {α : Type} (token : Bool) (r : RestResponse α)
    (a : Nat) (s : FetchSt α) :
    (handle_rest_status token r a s).2.2 = [] ∨
    (handle_rest_status token r a s).2.2 = [Ev.authFallback] ∨
    (handle_rest_status token r a s).2.2 = [Ev.rateLimitSleep] := by
  simp only [handle_rest_status]
  split_ifs <;> simp

theorem handle_rest_status_had {α : Type} (token : Bool) (r : RestResponse α)
    (a : Nat) (s : FetchSt α) :
    (handle_rest_status token r a s).1.hadServerError =
      if 500 ≤ r.status ∧ r.status < 600 then true else s.hadServerError := by
  simp only [handle_rest_status]
  split_ifs <;> simp_all

theorem rest_exec_5xx {α : Type} (token : Bool) (mR : Nat) :
    ∀ (script : List (Outcome (RestResponse α))) (att : Nat) (s : FetchSt α),
      s.hadServerError = true ∨
        has5xxResponse (retry_http_request restStatusOf FetchSt.auth
          (some (handle_rest_status token)) mR script att s).2.2 = true →
      (retry_http_request restStatusOf FetchSt.auth
        (some (handle_rest_status token)) mR script att s).2.1.hadServerError = true := by
  intro script
  induction script with
  | nil =>
    intro att s h
    simp only [retry_http_request] at h ⊢
    rcases h with h | h
    · exact h
    · simp [has5xxResponse] at h
  | cons o rest ih =>
    intro att s h
    cases o with
    | netErr t =>
      by_cases hlt : att < mR
      · simp only [retry_http_request, if_pos hlt] at h ⊢
        refine ih (att + 1) s ?_
        rcases h with h | h
        · exact Or.inl h
        · exact Or.inr (by simpa [has5xxResponse] using h)
      · simp only [retry_http_request, if_neg hlt] at h ⊢
        rcases h with h | h
        · exact h
        · simp [has5xxResponse] at h
    | resp r =>
      simp only [retry_http_request, applyHandler_some, restStatusOf] at h ⊢
      have hhad := handle_rest_status_had token r att s
      have hevs := handle_rest_status_events token r att s
      have hno5 : has5xxResponse (handle_rest_status token r att s).2.2 = false := by
        rcases hevs with he | he | he <;> rw [he] <;> rfl
      have hmono : s.hadServerError = true →
          (handle_rest_status token r att s).1.hadServerError = true := by
        intro hs
        rw [hhad]
        split_ifs <;> simp [hs]
      have h5set : 500 ≤ r.status ∧ r.status < 600 →
          (handle_rest_status token r att s).1.hadServerError = true := by
        intro h5
        rw [hhad, if_pos h5]
      have hfrom5 : ∀ tail : List (Ev Auth),
          has5xxResponse (Ev.request s.auth att :: Ev.response r.status ::
            ((handle_rest_status token r att s).2.2 ++ tail)) = true →
          (500 ≤ r.status ∧ r.status < 600) ∨ has5xxResponse tail = true := by
        intro tail htl
        simp only [has5xxResponse, has5xx_append, hno5, Bool.false_or,
          Bool.or_eq_true, decide_eq_true_eq] at htl
        rcases htl with h5 | h5
        · exact Or.inl (by simpa using h5)
        · exact Or.inr h5
      by_cases hretry : (handle_rest_status token r att s).2.1 = true
      · rw [if_pos hretry] at h ⊢
        dsimp only at h ⊢
        refine ih att (handle_rest_status token r att s).1 ?_
        rcases h with h | h
        · exact Or.inl (hmono h)
        · rcases hfrom5 _ h with h5 | h5
          · exact Or.inl (h5set h5)
          · exact Or.inr h5
      · rw [if_neg hretry] at h ⊢
        by_cases h5a : 500 ≤ r.status ∧ r.status < 600 ∧ att < mR
        · rw [if_pos h5a] at h ⊢
          dsimp only at h ⊢
          exact ih (att + 1) (handle_rest_status token r att s).1
            (Or.inl (h5set ⟨h5a.1, h5a.2.1⟩))
        · rw [if_neg h5a] at h ⊢
          by_cases h2xx : 200 ≤ r.status ∧ r.status < 300
          · rw [if_pos h2xx] at h ⊢
            dsimp only at h ⊢
            rcases h with h | h
            · exact hmono h
            · have h2 : has5xxResponse (Ev.request s.auth att :: Ev.response r.status ::
                  ((handle_rest_status token r att s).2.2 ++ [])) = true := by
                simpa using h
              rcases hfrom5 [] h2 with h5 | h5
              · exact h5set h5
              · simp [has5xxResponse] at h5
          · rw [if_neg h2xx] at h ⊢
            dsimp only at h ⊢
            rcases h with h | h
            · exact hmono h
            · have h2 : has5xxResponse (Ev.request s.auth att :: Ev.response r.status ::
                  ((handle_rest_status token r att s).2.2 ++ [])) = true := by
                simpa using h
              rcases hfrom5 [] h2 with h5 | h5
              · exact h5set h5
              · simp [has5xxResponse] at h5

theorem fetchGo_5xx {α : Type} (token : Bool) (mR mP mC : Nat) :
    ∀ (fuel : Nat) (script : List (Outcome (RestResponse α))) (s : FetchSt α),
      has5xxResponse (fetchGo token mR mP mC fuel script s).2.2 = true →
      ∀ l : List α, (fetchGo token mR mP mC fuel script s).1 ≠ FetchResult.ok (some l) := by
  intro fuel
  induction fuel with
  | zero =>
    intro script s h l
    simp [fetchGo, has5xxResponse] at h
  | succ fuel ih =>
    intro script s h l hcontra
    rcases hexec : retry_http_request restStatusOf FetchSt.auth
        (some (handle_rest_status token)) mR script 0 s with ⟨res, s1, evs⟩
    have hstate := rest_exec_5xx token mR script 0 s
    rw [hexec] at hstate
    simp only [fetchGo, hexec] at h hcontra
    cases res with
    | outOfScript => simp at hcontra
    | raiseNet t rest2 => cases t <;> simp_all
    | raiseStatus r rest2 =>
      by_cases h5 : 500 ≤ r.status ∧ r.status < 600 <;> simp_all
    | ret r rest2 =>
      dsimp only at h hcontra
      by_cases hsrv : s1.hadServerError = true
      · rw [if_pos hsrv] at hcontra
        simp at hcontra
      · rw [if_neg hsrv] at hcontra h
        rcases hbody : r.body with _ | page <;> rw [hbody] at hcontra h
        · simp at hcontra
        · dsimp only at hcontra h
          by_cases hstop : mP ≤ s1.pageCount + 1 ∨ mC ≤ (s1.comments ++ page).length
          · rw [if_pos hstop] at hcontra h
            exact hsrv (hstate (Or.inr h))
          · rw [if_neg hstop] at hcontra h
            by_cases hnx : r.next = true
            · rw [if_pos hnx] at hcontra h
              dsimp only at hcontra h
              rw [has5xx_append] at h
              rcases Bool.or_eq_true_iff.mp h with h5 | h5
              · exact hsrv (hstate (Or.inr h5))
              · exact ih rest2 _ h5 l hcontra
            · rw [if_neg hnx] at hcontra h
              exact hsrv (hstate (Or.inr h))

/-- Claim C1: whenever any response with a 5xx status is observed at any
point during REST pagination (any `Ev.response` event in the trace), the
fetch never returns a comment list: conservatively, every normal return is
`None`, even when a retry of the failed request succeeded. -/
theorem fetch_5xx_returns_none {α : Type} (token : Bool) (mR mP mC : Nat)
    (script : List (Outcome (RestResponse α)))
    (h : has5xxResponse (fetch_pr_comments token mR mP mC script).2.2 = true) :
    ∀ l : List α, (fetch_pr_comments token mR mP mC script).1 ≠ FetchResult.ok (some l) := by
  unfold fetch_pr_comments at h ⊢
  exact fetchGo_5xx token mR mP mC _ script _ h

/-- Witness for C1: a 503 followed by a successful retry that returns one
comment; the 5xx was observed, so the fetch returns `None` rather than the
retried page. -/
theorem fetch_5xx_returns_none_witness :
    has5xxResponse (fetch_pr_comments (α := Nat) false 3 50 2000
      [Outcome.resp server503, Outcome.resp (pageResp [7] false)]).2.2 = true ∧
    (∀ l : List Nat, (fetch_pr_comments false 3 50 2000
      [Outcome.resp server503, Outcome.resp (pageResp [7] false)]).1 ≠
        FetchResult.ok (some l)) ∧
    (fetch_pr_comments (α := Nat) false 3 50 2000
      [Outcome.resp server503, Outcome.resp (pageResp [7] false)]).1 =
      FetchResult.ok none :=
  ⟨by decide,
   fetch_5xx_returns_none false 3 50 2000
     [Outcome.resp server503, Outcome.resp (pageResp [7] false)] (by decide),
   by decide⟩

/-! ## REST fetcher: secondary rate limit (claim C2)

The claim (and the repository's own tests, which exercise the sibling
`mcp_github_pr_review.server` module and its `SECONDARY_RATE_LIMIT_BACKOFF`
constant) requires a 403 without `Retry-After` and without
`X-RateLimit-Remaining: 0` to sleep a fixed secondary backoff and retry, and
to abort with `None` after two consecutive secondary-limit responses (2
requests, 1 sleep).  The code under `src` has no such branch:
`handle_rest_status` returns `None` for such a 403, so `raise_for_status`
raises `httpx.HTTPStatusError` after a single request with no sleep, and
`fetch_pr_comments` re-raises it. -/

/-- Evaluation of the embedded code at the claim's scenario: two secondary
rate-limit 403s.  The fetch raises after exactly one request, with no
rate-limit sleep, no backoff sleep and no second request — contradicting the
claimed sleep-retry-then-None-after-2-requests behavior. -/
theorem secondary_rate_limit_divergence :
    (fetch_pr_comments (α := Nat) false 3 50 2000
      [Outcome.resp secondary403, Outcome.resp secondary403]).1 = FetchResult.raised ∧
    (fetch_pr_comments (α := Nat) false 3 50 2000
      [Outcome.resp secondary403, Outcome.resp secondary403]).2.2.countP
        Ev.isRequest = 1 ∧
    (fetch_pr_comments (α := Nat) false 3 50 2000
      [Outcome.resp secondary403, Outcome.resp secondary403]).2.2.countP
        Ev.isRateLimitSleep = 0 ∧
    (fetch_pr_comments (α := Nat) false 3 50 2000
      [Outcome.resp secondary403, Outcome.resp secondary403]).2.2.countP
        Ev.isBackoffSleep = 0 := by
  refine ⟨?_, ?_, ?_, ?_⟩ <;> decide

/-! ## REST fetcher: Bearer-to-token auth fallback (claim C7) -/

theorem handle_rest_status_fb {α : Type} (token : Bool) (r : RestResponse α)
    (a : Nat) (s : FetchSt α) :
    (handle_rest_status token r a s).1.usedTokenFallback.toNat =
      s.usedTokenFallback.toNat +
        (handle_rest_status token r a s).2.2.countP Ev.isAuthFallback := by
  simp only [handle_rest_status]
  split_ifs with h1 h2 <;>
    simp_all [List.countP_cons, Ev.isAuthFallback]

theorem rest_exec_fb {α : Type} (token : Bool) (mR : Nat) :
    ∀ (script : List (Outcome (RestResponse α))) (att : Nat) (s : FetchSt α),
      (retry_http_request restStatusOf FetchSt.auth
          (some (handle_rest_status token)) mR script att s).2.1.usedTokenFallback.toNat =
        s.usedTokenFallback.toNat +
          (retry_http_request restStatusOf FetchSt.auth
            (some (handle_rest_status token)) mR script att s).2.2.countP
              Ev.isAuthFallback := by
  intro script
  induction script with
  | nil =>
    intro att s
    simp [retry_http_request]
  | cons o rest ih =>
    intro att s
    cases o with
    | netErr t =>
      by_cases hlt : att < mR
      · simp only [retry_http_request, if_pos hlt]
        simpa [List.countP_cons, Ev.isAuthFallback] using ih (att + 1) s
      · simp [retry_http_request, if_neg hlt, List.countP_cons, Ev.isAuthFallback]
    | resp r =>
      simp only [retry_http_request, applyHandler_some]
      have hfb := handle_rest_status_fb token r att s
      by_cases hretry : (handle_rest_status token r att s).2.1 = true
      · rw [if_pos hretry]
        dsimp only
        have ihm := ih att (handle_rest_status token r att s).1
        rw [ihm, hfb]
        simp [List.countP_cons, List.countP_append, Ev.isAuthFallback]
        omega
      · rw [if_neg hretry]
        by_cases h5a : 500 ≤ restStatusOf r ∧ restStatusOf r < 600 ∧ att < mR
        · rw [if_pos h5a]
          dsimp only
          have ihm := ih (att + 1) (handle_rest_status token r att s).1
          rw [ihm, hfb]
          simp [List.countP_cons, List.countP_append, Ev.isAuthFallback]
          omega
        · rw [if_neg h5a]
          by_cases h2xx : 200 ≤ restStatusOf r ∧ restStatusOf r < 300
          · rw [if_pos h2xx]
            dsimp only
            rw [hfb]
            simp [List.countP_cons, Ev.isAuthFallback]
          · rw [if_neg h2xx]
            dsimp only
            rw [hfb]
            simp [List.countP_cons, Ev.isAuthFallback]

theorem fetchGo_fb {α : Type} (token : Bool) (mR mP mC : Nat) :
    ∀ (fuel : Nat) (script : List (Outcome (RestResponse α))) (s : FetchSt α),
      (fetchGo token mR mP mC fuel script s).2.1.usedTokenFallback.toNat =
        s.usedTokenFallback.toNat +
          (fetchGo token mR mP mC fuel script s).2.2.countP Ev.isAuthFallback := by
  intro fuel
  induction fuel with
  | zero => intro script s; simp [fetchGo]
  | succ fuel ih =>
    intro script s
    rcases hexec : retry_http_request restStatusOf FetchSt.auth
        (some (handle_rest_status token)) mR script 0 s with ⟨res, s1, evs⟩
    have hex := rest_exec_fb token mR script 0 s
    rw [hexec] at hex
    dsimp only at hex
    simp only [fetchGo, hexec]
    cases res with
    | outOfScript => exact hex
    | raiseNet t rest2 => cases t <;> exact hex
    | raiseStatus r rest2 =>
      dsimp only
      exact hex
    | ret r rest2 =>
      dsimp only
      by_cases hsrv : s1.hadServerError = true
      · rw [if_pos hsrv]; exact hex
      · rw [if_neg hsrv]
        rcases hbody : r.body with _ | page
        · exact hex
        · dsimp only
          by_cases hstop : mP ≤ s1.pageCount + 1 ∨ mC ≤ (s1.comments ++ page).length
          · rw [if_pos hstop]; exact hex
          · rw [if_neg hstop]
            by_cases hnx : r.next = true
            · rw [if_pos hnx]
              dsimp only
              have ihm := ih rest2
                { s1 with comments := s1.comments ++ page, pageCount := s1.pageCount + 1 }
              rw [List.countP_append]
              dsimp only at ihm
              omega
            · rw [if_neg hnx]; exact hex

/-- Claim C7: in any REST fetch, the Bearer-to-legacy-token auth fallback
happens at most once (first conjunct, any script).  Concretely with
`max_retries = 0` (so the fallback retry is not charged to the retry
budget): a first 401 under the Bearer scheme triggers exactly one transparent
retry whose request carries the legacy `token` scheme at the same attempt
number, and the fetch succeeds with the retried page; while a second 401
after the fallback is terminal — the fetch raises after exactly 2 requests
and a single fallback, with no further scheme retry. -/
theorem auth_fallback_once :
    (∀ (α : Type) (token : Bool) (mR mP mC : Nat)
        (script : List (Outcome (RestResponse α))),
      (fetch_pr_comments token mR mP mC script).2.2.countP Ev.isAuthFallback ≤ 1) ∧
    (fetch_pr_comments (α := Nat) true 0 50 2000
        [Outcome.resp unauthorized401, Outcome.resp (pageResp [7] false)]).1 =
      FetchResult.ok (some [7]) ∧
    (fetch_pr_comments (α := Nat) true 0 50 2000
        [Outcome.resp unauthorized401, Outcome.resp (pageResp [7] false)]).2.2 =
      [Ev.request Auth.bearer 0, Ev.response 401, Ev.authFallback,
        Ev.request Auth.legacy 0, Ev.response 200] ∧
    (fetch_pr_comments (α := Nat) true 0 50 2000
        [Outcome.resp unauthorized401, Outcome.resp unauthorized401]).1 =
      FetchResult.raised ∧
    (fetch_pr_comments (α := Nat) true 0 50 2000
        [Outcome.resp unauthorized401, Outcome.resp unauthorized401]).2.2.countP
        Ev.isRequest = 2 ∧
    (fetch_pr_comments (α := Nat) true 0 50 2000
        [Outcome.resp unauthorized401, Outcome.resp unauthorized401]).2.2.countP
        Ev.isAuthFallback = 1 := by
  refine ⟨?_, by decide, by decide, by decide, by decide, by decide⟩
  intro α token mR mP mC script
  have h := fetchGo_fb token mR mP mC (script.length + 1) script
    { auth := if token then Auth.bearer else Auth.noAuth
      usedTokenFallback := false
      hadServerError := false
      comments := []
      pageCount := 0 }
  unfold fetch_pr_comments
  have hle : ∀ b : Bool, b.toNat ≤ 1 := by decide
  calc (fetchGo token mR mP mC (script.length + 1) script _).2.2.countP Ev.isAuthFallback
      = (fetchGo token mR mP mC (script.length + 1) script _).2.1.usedTokenFallback.toNat := by
        rw [h]; simp
    _ ≤ 1 := hle _

/-! ## REST fetcher: pagination bounds (claim C6) -/

theorem handle_rest_status_page {α : Type} (token : Bool) (pg : List α) (nx : Bool)
    (a : Nat) (s : FetchSt α) :
    handle_rest_status token (pageResp pg nx) a s = (s, false, []) := rfl

theorem exec_clean {α : Type} (token : Bool) (mR : Nat) (pg : List α) (nx : Bool)
    (rest : List (Outcome (RestResponse α))) (s : FetchSt α) :
    retry_http_request restStatusOf FetchSt.auth (some (handle_rest_status token)) mR
        (Outcome.resp (pageResp pg nx) :: rest) 0 s =
      (ExecRes.ret (pageResp pg nx) rest, s, [Ev.request s.auth 0, Ev.response 200]) := rfl

theorem pagesScript_cons {α : Type} (p : List α × Bool) (ps : List (List α × Bool)) :
    pagesScript (p :: ps) = Outcome.resp (pageResp p.1 p.2) :: pagesScript ps := rfl

theorem pagesScript_length {α : Type} (ps : List (List α × Bool)) :
    (pagesScript ps).length = ps.length := by
  simp [pagesScript]

theorem countP_cleanTrace {π : Type} (info : π) (g : Nat) :
    (cleanTrace info g).countP Ev.isRequest = g := by
  induction g with
  | zero => rfl
  | succ g ih => simp [cleanTrace, List.countP_cons, Ev.isRequest, ih]

theorem paginate_pc_lower {α : Type} (mP mC : Nat) :
    ∀ (ps : List (List α × Bool)) (acc : List α) (pc : Nat) (a2 : List α) (p2 : Nat),
      paginate mP mC ps acc pc = some (a2, p2) → pc + 1 ≤ p2 := by
  intro ps
  induction ps with
  | nil => intro acc pc a2 p2 h; simp [paginate] at h
  | cons p ps ih =>
    intro acc pc a2 p2 h
    simp only [paginate] at h
    split_ifs at h with h1 h2
    · simp only [Option.some.injEq, Prod.mk.injEq] at h
      omega
    · have := ih (acc ++ p.1) (pc + 1) a2 p2 h
      omega
    · simp only [Option.some.injEq, Prod.mk.injEq] at h
      omega

theorem paginate_total {α : Type} (mP mC : Nat) :
    ∀ (ps : List (List α × Bool)) (acc : List α) (pc : Nat),
      pc < mP → mP ≤ pc + ps.length →
      ∃ a2 p2, paginate mP mC ps acc pc = some (a2, p2) := by
  intro ps
  induction ps with
  | nil => intro acc pc h1 h2; simp at h2; omega
  | cons p ps ih =>
    intro acc pc h1 h2
    simp only [paginate]
    split_ifs with hstop hnx
    · exact ⟨_, _, rfl⟩
    · refine ih (acc ++ p.1) (pc + 1) ?_ ?_
      · omega
      · simp at h2
        omega
    · exact ⟨_, _, rfl⟩

theorem paginate_props {α : Type} (mP mC : Nat) :
    ∀ (ps : List (List α × Bool)) (acc : List α) (pc : Nat) (a2 : List α) (p2 : Nat),
      paginate mP mC ps acc pc = some (a2, p2) → pc < mP →
      (a2 = acc ++ ((ps.take (p2 - pc)).map Prod.fst).join) ∧
      (1 ≤ p2 - pc ∧ p2 - pc ≤ ps.length ∧ p2 ≤ mP) ∧
      (∀ k, k + 1 < p2 - pc →
        pc + (k + 1) < mP ∧
        (acc ++ ((ps.take (k + 1)).map Prod.fst).join).length < mC ∧
        (ps.getD k ([], false)).2 = true) ∧
      (p2 < mP → a2.length < mC → (ps.getD (p2 - pc - 1) ([], false)).2 = false) ∧
      (mP = pc + 1 → p2 - pc = 1) := by
  intro ps
  induction ps with
  | nil => intro acc pc a2 p2 h hpc; simp [paginate] at h
  | cons p ps ih =>
    intro acc pc a2 p2 h hpc
    simp only [paginate] at h
    split_ifs at h with hstop hnx
    · simp only [Option.some.injEq, Prod.mk.injEq] at h
      obtain ⟨ha, hp⟩ := h
      have hg : p2 - pc = 1 := by omega
      refine ⟨by simp [hg, ← ha], ⟨by omega, by simp [hg], by omega⟩, ?_, ?_, fun _ => hg⟩
      · intro k hk
        omega
      · intro hplt hlen
        exfalso
        rcases hstop with hs | hs
        · omega
        · rw [← ha] at hlen
          omega
    · have hpc2 : pc + 1 < mP := by
        rw [not_or] at hstop
        omega
      have ihm := ih (acc ++ p.1) (pc + 1) a2 p2 h hpc2
      have hlow := paginate_pc_lower mP mC ps (acc ++ p.1) (pc + 1) a2 p2 h
      have hg : p2 - pc = (p2 - (pc + 1)) + 1 := by omega
      obtain ⟨ihA, ⟨ihB1, ihB2, ihB3⟩, ihC, ihD, _⟩ := ihm
      have hlen2 : (acc ++ p.1).length < mC := by
        rw [not_or] at hstop
        omega
      refine ⟨?_, ⟨by omega, by simp; omega, ihB3⟩, ?_, ?_, ?_⟩
      · rw [hg]
        simp only [List.take_succ_cons, List.map_cons, List.join]
        rw [ihA]
        simp [List.append_assoc]
      · intro k hk
        cases k with
        | zero =>
          refine ⟨by omega, ?_, by simp [hnx]⟩
          simpa using hlen2
        | succ k2 =>
          have hk2 : k2 + 1 < p2 - (pc + 1) := by omega
          obtain ⟨ih1, ih2, ih3⟩ := ihC k2 hk2
          refine ⟨by omega, ?_, by simpa using ih3⟩
          simpa [List.append_assoc] using ih2
      · intro hplt hlen
        have := ihD hplt hlen
        have hgd : p2 - pc - 1 = (p2 - (pc + 1) - 1) + 1 := by omega
        rw [hgd]
        simpa using this
      · intro hmp
        omega
    · simp only [Option.some.injEq, Prod.mk.injEq] at h
      obtain ⟨ha, hp⟩ := h
      have hg : p2 - pc = 1 := by omega
      have hnx2 : p.2 = false := by
        cases hb : p.2
        · rfl
        · exact absurd hb hnx
      refine ⟨by simp [hg, ← ha], ⟨by omega, by simp [hg], by omega⟩, ?_, ?_, fun _ => hg⟩
      · intro k hk
        omega
      · intro hplt hlen
        simp [hg, hnx2]

theorem fetchGo_clean {α : Type} (token : Bool) (mR mP mC : Nat) :
    ∀ (ps : List (List α × Bool)) (fuel : Nat) (s : FetchSt α),
      s.hadServerError = false → ps.length ≤ fuel →
      ∀ acc2 pc2, paginate mP mC ps s.comments s.pageCount = some (acc2, pc2) →
      fetchGo token mR mP mC (fuel + 1) (pagesScript ps) s =
        (FetchResult.ok (some acc2),
          { s with comments := acc2, pageCount := pc2 },
          cleanTrace s.auth (pc2 - s.pageCount)) := by
  intro ps
  induction ps with
  | nil => intro fuel s hsrv hf acc2 pc2 hp; simp [paginate] at hp
  | cons p ps ih =>
    intro fuel s hsrv hf acc2 pc2 hp
    have hlow := paginate_pc_lower mP mC (p :: ps) s.comments s.pageCount acc2 pc2 hp
    simp only [paginate] at hp
    rw [pagesScript_cons]
    simp only [fetchGo, exec_clean]
    rw [if_neg (by simp [hsrv])]
    have hbody : (pageResp p.1 p.2).body = some p.1 := rfl
    rw [hbody]
    dsimp only
    split_ifs at hp with hstop hnx
    · rw [if_pos hstop]
      simp only [Option.some.injEq, Prod.mk.injEq] at hp
      obtain ⟨ha, hpc⟩ := hp
      have h1 : pc2 - s.pageCount = 1 := by omega
      rw [ha, h1]
      simp [cleanTrace, hpc]
    · rw [if_neg hstop]
      have hnext : (pageResp p.1 p.2).next = p.2 := rfl
      rw [hnext, if_pos hnx]
      have hlow2 := paginate_pc_lower mP mC ps (s.comments ++ p.1)
        (s.pageCount + 1) acc2 pc2 hp
      cases fuel with
      | zero => simp at hf
      | succ fuel2 =>
        have ihm := ih fuel2
          { s with comments := s.comments ++ p.1, pageCount := s.pageCount + 1 }
          hsrv (by simpa using hf) acc2 pc2 hp
        rw [ihm]
        dsimp only
        have hg : pc2 - s.pageCount = (pc2 - (s.pageCount + 1)) + 1 := by omega
        rw [hg]
        simp [cleanTrace]
    · rw [if_neg hstop]
      have hnext : (pageResp p.1 p.2).next = p.2 := rfl
      have hnx2 : p.2 = false := by
        cases hb : p.2
        · rfl
        · exact absurd hb hnx
      rw [hnext, hnx2]
      simp only [Bool.false_eq_true, if_false]
      simp only [Option.some.injEq, Prod.mk.injEq] at hp
      obtain ⟨ha, hpc⟩ := hp
      have h1 : pc2 - s.pageCount = 1 := by omega
      rw [ha, h1]
      simp [cleanTrace, hpc]

/-- Claim C6: on an all-success script of `ps` pages (with `1 ≤ max_pages ≤
ps.length` so the server always has a page for every allowed request), the
REST fetch returns exactly the first `g` whole pages where `g` is the number
of GETs issued; `1 ≤ g ≤ max_pages`; before every later page neither bound
was reached and the `Link` header carried `rel="next"` (so the loop stops as
soon as `page_count ≥ max_pages` or the accumulated count reaches
`max_comments` after appending a whole page — in particular `max_comments`
on a page boundary fetches no extra page); if the loop stopped with neither
bound reached, the last page's `Link` header had no next entry; and
`max_pages = 1` issues exactly one GET regardless of Link headers. -/
theorem rest_pagination_bounds {α : Type} (token : Bool) (mR mP mC : Nat)
    (ps : List (List α × Bool)) (h1 : 1 ≤ mP) (h2 : mP ≤ ps.length) :
    ∀ g, g = (fetch_pr_comments token mR mP mC (pagesScript ps)).2.2.countP Ev.isRequest →
      (fetch_pr_comments token mR mP mC (pagesScript ps)).1 =
        FetchResult.ok (some (((ps.take g).map Prod.fst).join)) ∧
      1 ≤ g ∧ g ≤ mP ∧ g ≤ ps.length ∧
      (∀ k, k + 1 < g → k + 1 < mP ∧
        ((((ps.take (k + 1)).map Prod.fst).join).length < mC) ∧
        (ps.getD k ([], false)).2 = true) ∧
      (g < mP → (((ps.take g).map Prod.fst).join).length < mC →
        (ps.getD (g - 1) ([], false)).2 = false) ∧
      (mP = 1 → g = 1) := by
  obtain ⟨a2, p2, hpag⟩ := paginate_total mP mC ps [] 0 (by omega) (by omega)
  have hsim := fetchGo_clean token mR mP mC ps (pagesScript ps).length
    { auth := if token then Auth.bearer else Auth.noAuth
      usedTokenFallback := false
      hadServerError := false
      comments := []
      pageCount := 0 }
    rfl (by rw [pagesScript_length]) a2 p2 hpag
  have hprops := paginate_props mP mC ps [] 0 a2 p2 hpag (by omega)
  obtain ⟨hA, ⟨hB1, hB2, hB3⟩, hC, hD, hE⟩ := hprops
  simp only [Nat.sub_zero] at hA hB1 hB2 hC hD hE
  intro g hg
  unfold fetch_pr_comments at hg ⊢
  rw [hsim] at hg ⊢
  dsimp only at hg
  rw [countP_cleanTrace] at hg
  subst hg
  simp only [List.nil_append] at hA
  refine ⟨by rw [← hA], hB1, by omega, hB2, ?_, ?_, ?_⟩
  · intro k hk
    have := hC k hk
    simpa using this
  · intro hlt hlen
    refine hD (by omega) ?_
    rw [hA]
    exact hlen
  · intro hmp
    exact hE (by omega)

/-- Witness for C6 at two pages `[1,2]` (with next) and `[3]` (without),
`max_pages = 2`, `max_comments = 100`: two GETs, all four comments. -/
theorem rest_pagination_bounds_witness :
    (fetch_pr_comments (α := Nat) false 3 2 100
        (pagesScript [([1, 2], true), ([3], false)])).1 =
      FetchResult.ok (some ((([([1, 2], true), ([3], false)].take 2).map
        Prod.fst).join)) ∧
    1 ≤ 2 ∧ 2 ≤ 2 ∧ 2 ≤ [([1, 2], true), ([3], false)].length ∧
    (∀ k, k + 1 < 2 → k + 1 < 2 ∧
      (((([([1, 2], true), ([3], false)].take (k + 1)).map Prod.fst).join).length < 100) ∧
      ([([1, 2], true), ([3], false)].getD k ([], false)).2 = true) ∧
    (2 < 2 → ((([([1, 2], true), ([3], false)].take 2).map Prod.fst).join).length < 100 →
      ([([1, 2], true), ([3], false)].getD (2 - 1) ([], false)).2 = false) ∧
    (2 = 1 → 2 = 1) :=
  rest_pagination_bounds false 3 2 100 [([1, 2], true), ([3], false)]
    (by decide) (by decide) 2 (by decide)

/-! ## GraphQL fetcher: token precondition and `errors` abort (claim C9) -/

/-- Claim C9: without an auth token the GraphQL fetch returns `None` with an
empty event trace — no HTTP request is issued (first conjunct).  Whenever the
retry executor hands the loop a response whose 200-body carries a top-level
`errors` array, the fetch aborts immediately with `None`, discarding the
comments accumulated so far (second conjunct, for an arbitrary accumulated
list `acc`).  The third conjunct instantiates this: a successful first page
with one comment followed by an `errors` page yields `None`, not the partial
page, after two requests. -/
theorem graphql_token_and_errors :
    (∀ (α : Type) (mR mC : Nat) (script : List (Outcome (GqlResponse α))),
      fetch_pr_comments_graphql false mR mC script = (FetchResult.ok none, [])) ∧
    (∀ (α : Type) (mR mC fuel : Nat) (script : List (Outcome (GqlResponse α)))
        (acc : List α) (r : GqlResponse α) (rest : List (Outcome (GqlResponse α)))
        (s1 : Unit) (evs : List (Ev Unit)),
      acc.length < mC →
      retry_http_request gqlStatusOf (fun _ => ()) none mR script 0 () =
        (ExecRes.ret r rest, s1, evs) →
      r.body.hasErrors = true →
      gqlGo mR mC (fuel + 1) script acc true = (FetchResult.ok none, evs)) ∧
    ((fetch_pr_comments_graphql true 3 2000
        [Outcome.resp ⟨200, ⟨false, some ⟨[1], true⟩⟩⟩,
          Outcome.resp ⟨200, (⟨true, none⟩ : GqlBody Nat)⟩]).1 = FetchResult.ok none ∧
      (fetch_pr_comments_graphql true 3 2000
        [Outcome.resp ⟨200, ⟨false, some ⟨[1], true⟩⟩⟩,
          Outcome.resp ⟨200, (⟨true, none⟩ : GqlBody Nat)⟩]).2.countP
          Ev.isRequest = 2) := by
  refine ⟨?_, ?_, by decide, by decide⟩
  · intro α mR mC script
    simp [fetch_pr_comments_graphql]
  · intro α mR mC fuel script acc r rest s1 evs hlen hexec herr
    simp only [gqlGo]
    rw [if_neg (by omega)]
    rw [hexec]
    dsimp only
    rw [if_pos herr]

/-- Witness for C9's abort conjunct: an errors-response as the first script
element aborts from accumulated state `[5]` and returns `None`. -/
theorem graphql_token_and_errors_witness :
    ([5] : List Nat).length < 2000 ∧
    gqlGo 3 2000 1 [Outcome.resp ⟨200, (⟨true, none⟩ : GqlBody Nat)⟩] [5] true =
      (FetchResult.ok none, [Ev.request () 0, Ev.response 200]) :=
  ⟨by decide,
   graphql_token_and_errors.2.1 Nat 3 2000 0
     [Outcome.resp ⟨200, (⟨true, none⟩ : GqlBody Nat)⟩] [5]
     ⟨200, (⟨true, none⟩ : GqlBody Nat)⟩ [] () [Ev.request () 0, Ev.response 200]
     (by decide) (by decide) rfl⟩

/-! ## Tool-level error mapping (claim C10) -/

/-- Claim C10: in `ReviewSpecGenerator.fetch_pr_review_comments`, a `None`
from the underlying GraphQL fetcher maps to the empty list — indistinguishable
at the tool boundary from a PR with zero review comments — while the
single-element error payload arises exactly from a `ValueError` (a PR URL
that fails to parse); a successful fetch is returned as-is. -/
theorem tool_fetch_error_mapping {α : Type} (url : String) (l : List α) :
    (get_pr_info url = none →
      ∀ fo : Option (List α),
        fetch_pr_review_comments url fo = [CommentResult.errorMsg]) ∧
    (get_pr_info url ≠ none →
      fetch_pr_review_comments url (none : Option (List α)) = [] ∧
      fetch_pr_review_comments url (some ([] : List α)) = [] ∧
      fetch_pr_review_comments (α := α) url none =
        fetch_pr_review_comments url (some []) ∧
      fetch_pr_review_comments url (some l) = l.map CommentResult.comment) := by
  constructor
  · intro hu fo
    simp [fetch_pr_review_comments, hu]
  · intro hu
    rcases hp : get_pr_info url with _ | v
    · exact absurd hp hu
    · refine ⟨?_, ?_, ?_, ?_⟩ <;> simp [fetch_pr_review_comments, hp]

/-- Witness for C10 at a malformed and a well-formed PR URL. -/
theorem tool_fetch_error_mapping_witness :
    fetch_pr_review_comments (α := Nat) "not a url" none = [CommentResult.errorMsg] ∧
    fetch_pr_review_comments (α := Nat) "https://h/o/r/pull/1" none = [] ∧
    fetch_pr_review_comments (α := Nat) "https://h/o/r/pull/1" (some []) = [] ∧
    fetch_pr_review_comments (α := Nat) "https://h/o/r/pull/1" none =
      fetch_pr_review_comments (α := Nat) "https://h/o/r/pull/1" (some []) ∧
    fetch_pr_review_comments "https://h/o/r/pull/1" (some [7]) =
      List.map CommentResult.comment [7] := by
  have h1 := (tool_fetch_error_mapping (α := Nat) "not a url" [7]).1 (by decide)
  have h2 := (tool_fetch_error_mapping (α := Nat) "https://h/o/r/pull/1" [7]).2
    (by decide)
  exact ⟨h1 none, h2.1, h2.2.1, h2.2.2.1, h2.2.2.2⟩

end PrReview

